import Mathlib

/-
  Verification of the course-enrollment admission and waitlist engine of the
  Student-Information-System repository.

  The schedule service (hasTimeConflict, getUserWeeklySchedule,
  checkCourseConflicts), the enrollment controller (enrollInCourse, dropCourse,
  getMyEnrollments, getEnrollmentStatus) and the cart service (addToCart) are
  embedded from the TypeScript source.  The enrollment service itself
  (queueEnrollment, dropEnrollment, the admission engine and job status store)
  is not part of the available source tree; those definitions are modelled
  from the design specification and are marked as such in their doc comments.
-/

/-- JavaScript string comparison: code-unit lexicographic order on the
underlying character lists.  `charListLt a b` embeds the JS expression
`a < b` on strings. -/
def charListLt : List Char → List Char → Bool
  | _, [] => false
  | [], _ :: _ => true
  | a :: as, b :: bs =>
    if a < b then true
    else if b < a then false
    else charListLt as bs

/-- JS `a < b` on strings. -/
def strLt (a b : String) : Bool := charListLt a.data b.data

/-- JS `a > b` on strings (defined as `b < a`). -/
def strGt (a b : String) : Bool := charListLt b.data a.data

/-- Prisma enum `DayOfWeek`. -/
inductive DayOfWeek where
  | MONDAY
  | TUESDAY
  | WEDNESDAY
  | THURSDAY
  | FRIDAY
  | SATURDAY
  | SUNDAY
deriving DecidableEq, Repr

/-- Prisma enum `EnrollmentStatus`. -/
inductive EnrollmentStatus where
  | PENDING
  | CONFIRMED
  | WAITLISTED
  | WITHDRAWN
deriving DecidableEq, Repr

/-- The fields of a meeting slot consulted by `hasTimeConflict`
(scheduleService.ts passes both `TimeSlot` rows and schedule items here). -/
structure MeetingTime where
  dayOfWeek : DayOfWeek
  startTime : String
  endTime : String
deriving DecidableEq, Repr

/-- `hasTimeConflict` from scheduleService.ts (part_007, lines 105-123):
different days never conflict; on the same day the slots conflict iff
`start1 < end2 && end1 > start2` (JS string comparison on HH:MM times). -/
def hasTimeConflict (slot1 slot2 : MeetingTime) : Bool :=
  if slot1.dayOfWeek ≠ slot2.dayOfWeek then false
  else strLt slot1.startTime slot2.endTime && strGt slot1.endTime slot2.startTime

/-- Prisma `TimeSlot` row (dayOfWeek, startTime, endTime, location). -/
structure TimeSlot where
  dayOfWeek : DayOfWeek
  startTime : String
  endTime : String
  location : Option String
deriving DecidableEq, Repr

def TimeSlot.toMeeting (ts : TimeSlot) : MeetingTime :=
  ⟨ts.dayOfWeek, ts.startTime, ts.endTime⟩

/-- Instructor projection selected by the schedule queries. -/
structure Instructor where
  id : Nat
  fullName : String
deriving DecidableEq, Repr

/-- Course row together with its included `timeSlots` and `instructor`,
as returned by the Prisma queries in scheduleService.ts. -/
structure Course where
  id : Nat
  courseCode : String
  courseName : String
  credits : Nat
  timeSlots : List TimeSlot
  instructor : Option Instructor
deriving DecidableEq, Repr

/-- Enrollment row with its included course, as consumed by
`getUserWeeklySchedule`. -/
structure EnrollmentRow where
  id : Nat
  userId : Nat
  termId : Nat
  status : EnrollmentStatus
  course : Course
deriving DecidableEq, Repr

/-- The database tables read by the schedule service. -/
structure ScheduleDb where
  enrollments : List EnrollmentRow
  courses : List Course
deriving DecidableEq, Repr

/-- The `course` sub-object of a `WeeklyScheduleItem`. -/
structure ScheduleCourseInfo where
  id : Nat
  courseCode : String
  courseName : String
  credits : Nat
  instructor : Option Instructor
deriving DecidableEq, Repr

/-- `WeeklyScheduleItem` from scheduleService.ts. -/
structure WeeklyScheduleItem where
  dayOfWeek : DayOfWeek
  startTime : String
  endTime : String
  location : Option String
  course : ScheduleCourseInfo
  enrollmentStatus : EnrollmentStatus
deriving DecidableEq, Repr

def WeeklyScheduleItem.toMeeting (it : WeeklyScheduleItem) : MeetingTime :=
  ⟨it.dayOfWeek, it.startTime, it.endTime⟩

/-- `dayOrder` table from `getUserWeeklySchedule` (MONDAY = 1 .. SUNDAY = 7). -/
def dayOrder : DayOfWeek → Nat
  | .MONDAY => 1
  | .TUESDAY => 2
  | .WEDNESDAY => 3
  | .THURSDAY => 4
  | .FRIDAY => 5
  | .SATURDAY => 6
  | .SUNDAY => 7

/-- The comparator of `scheduleItems.sort` in `getUserWeeklySchedule`,
as a total boolean preorder: ascending day order, then ascending start
time (localeCompare). -/
def scheduleLe (a b : WeeklyScheduleItem) : Bool :=
  if dayOrder a.dayOfWeek ≠ dayOrder b.dayOfWeek then
    decide (dayOrder a.dayOfWeek < dayOrder b.dayOfWeek)
  else
    !(strLt b.startTime a.startTime)

/-- `getUserWeeklySchedule` from scheduleService.ts (part_007, lines 30-100):
select the user's enrollments with status CONFIRMED or WAITLISTED (optionally
restricted to a term), flatten each enrolled course's time slots into
schedule items, and sort by day of week then start time. -/
def getUserWeeklySchedule (db : ScheduleDb) (userId : Nat) (termId : Option Nat) :
    List WeeklyScheduleItem :=
  let enrollments := db.enrollments.filter (fun e =>
    e.userId == userId &&
    (e.status == .CONFIRMED || e.status == .WAITLISTED) &&
    (match termId with
     | some t => e.termId == t
     | none => true))
  let scheduleItems := enrollments.flatMap (fun e =>
    e.course.timeSlots.map (fun ts =>
      ⟨ts.dayOfWeek, ts.startTime, ts.endTime, ts.location,
       ⟨e.course.id, e.course.courseCode, e.course.courseName, e.course.credits,
        e.course.instructor⟩,
       e.status⟩))
  scheduleItems.mergeSort scheduleLe

/-- Result record of `checkCourseConflicts`. -/
structure ConflictCheckResult where
  hasConflict : Bool
  conflicts : List (TimeSlot × WeeklyScheduleItem)
deriving DecidableEq, Repr

/-- `checkCourseConflicts` from scheduleService.ts (part_007, lines 128-165):
fetch the user's current schedule, look the candidate course up (error if it
does not exist), and collect every pair of a candidate time slot and a
schedule item for which `hasTimeConflict` holds. -/
def checkCourseConflicts (db : ScheduleDb) (userId courseId : Nat)
    (termId : Option Nat) : Except String ConflictCheckResult :=
  let currentSchedule := getUserWeeklySchedule db userId termId
  match db.courses.find? (fun c => c.id == courseId) with
  | none => .error "Course not found"
  | some course =>
    let conflicts := course.timeSlots.flatMap (fun newSlot =>
      (currentSchedule.filter (fun it =>
        hasTimeConflict newSlot.toMeeting it.toMeeting)).map (fun it => (newSlot, it)))
    .ok ⟨decide (conflicts.length > 0), conflicts⟩

/-- Modelled from the spec: the durable `Enrollment` record owned by the
admission engine (enrollment service source is not in the tree).  Fields
follow the Prisma schema used by the seed file: id, userId, courseId,
status, waitlistPosition. -/
structure Enrollment where
  id : Nat
  userId : Nat
  courseId : Nat
  status : EnrollmentStatus
  waitlistPosition : Option Nat
deriving DecidableEq, Repr

/-- Modelled from the spec: the per-course state protected by the course's
serialization scope — capacity (`maxCapacity`), the authoritative
`confirmedCount` (`currentEnrollment`), the course's enrollment rows, and
the next fresh enrollment id. -/
structure CourseEngineState where
  courseId : Nat
  capacity : Nat
  confirmedCount : Nat
  enrollments : List Enrollment
  nextEnrollmentId : Nat
deriving DecidableEq, Repr

/-- A status counts as an active enrollment for the duplicate-enrollment
check (already enrolled/queued). -/
def isActiveStatus : EnrollmentStatus → Bool
  | .CONFIRMED => true
  | .WAITLISTED => true
  | .PENDING => true
  | .WITHDRAWN => false

/-- Number of CONFIRMED enrollment rows. -/
def countConfirmed (es : List Enrollment) : Nat :=
  es.countP (fun e => e.status == .CONFIRMED)

/-- Modelled from the spec: current maximum waitlist position of a course
(0 when the waitlist is empty). -/
def maxWaitlistPosition (es : List Enrollment) : Nat :=
  es.foldl (fun m e =>
    match e.status, e.waitlistPosition with
    | .WAITLISTED, some p => max m p
    | _, _ => m) 0

/-- Outcome of an admission decision. -/
inductive AdmissionDecision where
  | confirmed
  | waitlisted (position : Nat)
  | rejected (reason : String)
deriving DecidableEq, Repr

/-- Modelled from the spec: the Admission Controller `decide` step (spec
section 4.2, enrollment service source missing).  Preconditions in order: no
active enrollment for the requester, then no schedule conflict; then under
the course's serialization scope, a seat is granted while
`confirmedCount < capacity`, otherwise a waitlist entry with position
`currentMaxPosition + 1` is appended. -/
def decideAdmission (s : CourseEngineState) (requesterId : Nat) (scheduleConflict : Bool) :
    AdmissionDecision × CourseEngineState :=
  if s.enrollments.any (fun e => e.userId == requesterId && isActiveStatus e.status) then
    (.rejected "already enrolled", s)
  else if scheduleConflict then
    (.rejected "schedule conflict", s)
  else if s.confirmedCount < s.capacity then
    let e : Enrollment := ⟨s.nextEnrollmentId, requesterId, s.courseId, .CONFIRMED, none⟩
    (.confirmed,
     { s with confirmedCount := s.confirmedCount + 1,
              enrollments := s.enrollments ++ [e],
              nextEnrollmentId := s.nextEnrollmentId + 1 })
  else
    let pos := maxWaitlistPosition s.enrollments + 1
    let e : Enrollment := ⟨s.nextEnrollmentId, requesterId, s.courseId, .WAITLISTED, some pos⟩
    (.waitlisted pos,
     { s with enrollments := s.enrollments ++ [e],
              nextEnrollmentId := s.nextEnrollmentId + 1 })

/-- Mark the first enrollment row with the given id WITHDRAWN and clear its
waitlist position. -/
def withdrawFirst : List Enrollment → Nat → List Enrollment
  | [], _ => []
  | e :: es, eid =>
    if e.id == eid then { e with status := .WITHDRAWN, waitlistPosition := none } :: es
    else e :: withdrawFirst es eid

/-- Modelled from the spec: waitlist compaction — every WAITLISTED row with a
position strictly greater than `p` shifts down by one. -/
def compactOne (p : Nat) (e : Enrollment) : Enrollment :=
  if e.status == .WAITLISTED then
    match e.waitlistPosition with
    | some q => if p < q then { e with waitlistPosition := some (q - 1) } else e
    | none => e
  else e

/-- Modelled from the spec: find the WAITLISTED enrollment with the smallest
waitlist position (earliest submission wins ties). -/
def findMinWaitlisted : List Enrollment → Option Enrollment
  | [] => none
  | e :: es =>
    match findMinWaitlisted es with
    | none => if e.status == .WAITLISTED then some e else none
    | some b =>
      if e.status == .WAITLISTED && e.waitlistPosition.getD 0 ≤ b.waitlistPosition.getD 0 then
        some e
      else some b

/-- Transition the first row with id `wid` from WAITLISTED to CONFIRMED and
compact every remaining waitlist position above `p`. -/
def promoteEntry : List Enrollment → Nat → Nat → List Enrollment
  | [], _, _ => []
  | e :: es, wid, p =>
    if e.id == wid then
      { e with status := .CONFIRMED, waitlistPosition := none } :: es.map (compactOne p)
    else compactOne p e :: promoteEntry es wid p

/-- Modelled from the spec: the Waitlist Promoter (spec section 4.3, source
missing) — called inside the course's serialization scope when a seat has
just become free; promotes the smallest-position waitlist entry to CONFIRMED,
compacts the remaining positions and increments `confirmedCount`; no-op when
the waitlist is empty. -/
def promote (s : CourseEngineState) : CourseEngineState :=
  match findMinWaitlisted s.enrollments with
  | none => s
  | some w =>
    { s with confirmedCount := s.confirmedCount + 1,
             enrollments := promoteEntry s.enrollments w.id (w.waitlistPosition.getD 0) }

/-- Modelled from the spec: the drop path (spec section 4.2, enrollment
service source missing).  Dropping a missing or foreign enrollment is a
validation failure; dropping a WITHDRAWN enrollment is an idempotent no-op;
dropping a CONFIRMED enrollment releases the seat and promotes inside the
same critical section; dropping a WAITLISTED enrollment removes the entry
and compacts the positions behind it. -/
def dropEnrollment (s : CourseEngineState) (enrollmentId userId : Nat) :
    Except String CourseEngineState :=
  match s.enrollments.find? (fun e => e.id == enrollmentId) with
  | none => .error "Enrollment not found"
  | some e =>
    if e.userId ≠ userId then .error "Not authorized to drop this enrollment"
    else
      match e.status with
      | .WITHDRAWN => .ok s
      | .CONFIRMED =>
        .ok (promote { s with confirmedCount := s.confirmedCount - 1,
                              enrollments := withdrawFirst s.enrollments enrollmentId })
      | .WAITLISTED =>
        .ok { s with enrollments :=
                ((withdrawFirst s.enrollments enrollmentId).map
                  (compactOne (e.waitlistPosition.getD 0))) }
      | .PENDING =>
        .ok { s with enrollments := withdrawFirst s.enrollments enrollmentId }

/-- Well-formedness of a course engine state: `confirmedCount` is the number
of CONFIRMED rows, it never exceeds the capacity, enrollment ids are unique,
and `nextEnrollmentId` is fresh. -/
def EngineWF (s : CourseEngineState) : Prop :=
  s.confirmedCount = countConfirmed s.enrollments ∧
  s.confirmedCount ≤ s.capacity ∧
  (s.enrollments.map Enrollment.id).Nodup ∧
  ∀ e ∈ s.enrollments, e.id < s.nextEnrollmentId

/-- A fresh course with the given capacity and no enrollments. -/
def initCourse (cid cap : Nat) : CourseEngineState := ⟨cid, cap, 0, [], 0⟩

/-- Serialized processing of a batch of enrollment requests for one course:
the per-course lane processes them strictly in submission order. -/
def runAdmissions (s : CourseEngineState) (rs : List Nat) : CourseEngineState :=
  rs.foldl (fun st r => (decideAdmission st r false).2) s

/-- Job lifecycle states (spec section 3). -/
inductive JobState where
  | QUEUED
  | PROCESSING
  | SUCCEEDED
  | FAILED
deriving DecidableEq, Repr

/-- The job record polled by the caller: state, eventual enrollment outcome,
error classification and retryability. -/
structure JobRecord where
  state : JobState
  enrollment : Option Enrollment
  errorReason : Option String
  retryable : Option Bool
deriving DecidableEq, Repr

/-- A stored job together with the end of its retention window. -/
structure JobEntry where
  jobId : String
  record : JobRecord
  expiresAt : Nat
deriving DecidableEq, Repr

/-- Modelled from the spec: the Job Status Store (spec section 4.5, source
missing) — a durable mapping from job handle to record, with TTL-based
garbage collection after a terminal record's retention window. -/
structure JobStore where
  jobs : List JobEntry
deriving DecidableEq, Repr

/-- The distinct result of a status lookup: either the job record, or the
expired/unknown marker (spec section 4.5: a lookup past expiry returns a
distinct result, not an error that implies failure). -/
inductive JobStatusResult where
  | record (r : JobRecord)
  | unknownOrExpired
deriving DecidableEq, Repr

/-- Modelled from the spec: `getEnrollmentJobStatus` of the enrollment
service (source missing).  The lookup is total: an unknown handle or a
record past its retention window yields the distinct `unknownOrExpired`
result rather than throwing. -/
def getEnrollmentJobStatus (store : JobStore) (now : Nat) (jobId : String) :
    JobStatusResult :=
  match store.jobs.find? (fun e => e.jobId == jobId) with
  | none => .unknownOrExpired
  | some e => if e.expiresAt < now then .unknownOrExpired else .record e.record

/-- Response of the `GET /enrollments/status/:jobId` controller
(enrollmentController, part_004 lines 115-131): the service value is sent
with HTTP 200; a thrown error would be sent with HTTP 500.  The controller
has no 404 branch. -/
inductive StatusResponse where
  | ok200 (data : JobStatusResult)
  | serverError500 (message : String)
deriving DecidableEq, Repr

def statusResponseCode : StatusResponse → Nat
  | .ok200 _ => 200
  | .serverError500 _ => 500

/-- `getEnrollmentStatus` from enrollmentController (part_004, lines
115-131): calls the service and answers 200 with its result; the catch
branch (500) is unreachable because the modelled store lookup is total. -/
def getEnrollmentStatus (store : JobStore) (now : Nat) (jobId : String) :
    StatusResponse :=
  .ok200 (getEnrollmentJobStatus store now jobId)

/-- A queued enrollment request awaiting its admission decision. -/
structure QueueJob where
  jobId : String
  userId : Nat
  courseId : Nat
deriving DecidableEq, Repr

/-- Modelled from the spec: the Enrollment Job Queue state (spec section
4.4, source missing). -/
structure QueueState where
  pending : List QueueJob
  nextJobSeq : Nat
deriving DecidableEq, Repr

def jobIdFor (n : Nat) : String := "job-" ++ toString n

/-- Modelled from the spec: `queueEnrollment` of the enrollment service
(source missing) — the non-blocking `submit` of the Enrollment Job Queue.
A missing course id in the body is a malformed request and throws; an
identical in-flight request returns the existing handle (idempotent submit);
otherwise a fresh job handle is created and returned immediately, without
running the admission decision. -/
def queueEnrollment (q : QueueState) (userId : Nat) (courseId : Option Nat) :
    Except String (String × QueueState) :=
  match courseId with
  | none => .error "Course ID is required"
  | some cid =>
    match q.pending.find? (fun j => j.userId == userId && j.courseId == cid) with
    | some j => .ok (j.jobId, q)
    | none =>
      let jid := jobIdFor q.nextJobSeq
      .ok (jid, ⟨q.pending ++ [⟨jid, userId, cid⟩], q.nextJobSeq + 1⟩)

/-- Response of the `POST /enrollments` controller (part_004, lines 14-39):
202 with the job handle, 400 on a thrown validation error, 401 without
authentication. -/
inductive EnrollResponse where
  | accepted202 (jobId : String)
  | badRequest400 (message : String)
  | unauthorized401
deriving DecidableEq, Repr

def enrollResponseCode : EnrollResponse → Nat
  | .accepted202 _ => 202
  | .badRequest400 _ => 400
  | .unauthorized401 => 401

/-- `enrollInCourse` from enrollmentController (part_004, lines 14-39):
reject unauthenticated calls with 401, otherwise queue the enrollment and
answer 202 with the job handle, or 400 when the service throws. -/
def enrollInCourse (q : QueueState) (auth : Option Nat) (body : Option Nat) :
    EnrollResponse × QueueState :=
  match auth with
  | none => (.unauthorized401, q)
  | some userId =>
    match queueEnrollment q userId body with
    | .ok (jid, q2) => (.accepted202 jid, q2)
    | .error msg => (.badRequest400 msg, q)

/-- Response of the `DELETE /enrollments/:id` controller (part_004, lines
45-70). -/
inductive DropResponse where
  | ok200
  | badRequest400 (message : String)
  | unauthorized401
deriving DecidableEq, Repr

def dropResponseCode : DropResponse → Nat
  | .ok200 => 200
  | .badRequest400 _ => 400
  | .unauthorized401 => 401

/-- `dropCourse` from enrollmentController (part_004, lines 45-70): reject
unauthenticated calls with 401, otherwise run the drop path and answer 200
on success, or 400 when the service throws (enrollment missing or foreign). -/
def dropCourse (s : CourseEngineState) (auth : Option Nat) (enrollmentId : Nat) :
    DropResponse × CourseEngineState :=
  match auth with
  | none => (.unauthorized401, s)
  | some userId =>
    match dropEnrollment s enrollmentId userId with
    | .ok s2 => (.ok200, s2)
    | .error msg => (.badRequest400 msg, s)

/-- One row of the list returned by `getUserEnrollments`, with the fields the
my-courses summary reads: the enrollment status and the course's credits. -/
structure MyEnrollmentRow where
  status : EnrollmentStatus
  credits : Nat
deriving DecidableEq, Repr

/-- The totals object of the `GET /enrollments/my-courses` response. -/
structure MyCoursesSummary where
  total_enrolled : Nat
  total_waitlisted : Nat
  total_pending : Nat
  total_credits : Nat
deriving DecidableEq, Repr

/-- The summary computation of `getMyEnrollments` (enrollmentController,
part_004 lines 76-109): `confirmed` filters the CONFIRMED enrollments,
`total_credits` sums course credits over `confirmed` only, and waitlisted
and pending rows are counted in their own fields. -/
def myCoursesSummary (enrollments : List MyEnrollmentRow) : MyCoursesSummary :=
  let confirmed := enrollments.filter (fun e => e.status == .CONFIRMED)
  let totalCredits := confirmed.foldl (fun sum e => sum + e.credits) 0
  { total_enrolled := confirmed.length,
    total_waitlisted := (enrollments.filter (fun e => e.status == .WAITLISTED)).length,
    total_pending := (enrollments.filter (fun e => e.status == .PENDING)).length,
    total_credits := totalCredits }

/-- A shopping-cart row; the Prisma schema has a unique composite key on
(userId, courseId, termId). -/
structure CartItem where
  userId : Nat
  courseId : Nat
  termId : Nat
  notes : Option String
deriving DecidableEq, Repr

/-- The enrollment fields consulted by the cart's already-enrolled check. -/
structure CartEnrollment where
  userId : Nat
  courseId : Nat
  status : EnrollmentStatus
deriving DecidableEq, Repr

/-- The database tables read and written by `addToCart`. -/
structure CartDb where
  courses : List Nat
  terms : List Nat
  cart : List CartItem
  enrollments : List CartEnrollment
deriving DecidableEq, Repr

/-- Whether an enrollment row blocks adding the course to the cart
(status CONFIRMED, WAITLISTED or PENDING). -/
def blocksCart (userId courseId : Nat) (e : CartEnrollment) : Bool :=
  e.userId == userId && e.courseId == courseId &&
  (e.status == .CONFIRMED || e.status == .WAITLISTED || e.status == .PENDING)

/-- `addToCart` from cartService.ts (lines 51-125): validate that the course
and the term exist, that the (userId, courseId, termId) item is not already
in the cart, and that the user holds no CONFIRMED, WAITLISTED or PENDING
enrollment for the course; then create exactly one cart item.  Each failed
check throws a ValidationError before anything is written. -/
def addToCart (db : CartDb) (userId courseId termId : Nat) (notes : Option String) :
    Except String (CartItem × CartDb) :=
  match db.courses.find? (fun c => c == courseId) with
  | none => .error "Course not found"
  | some _ =>
    match db.terms.find? (fun t => t == termId) with
    | none => .error "Term not found"
    | some _ =>
      match db.cart.find? (fun it =>
          it.userId == userId && it.courseId == courseId && it.termId == termId) with
      | some _ => .error "Course is already in your shopping cart"
      | none =>
        match db.enrollments.find? (blocksCart userId courseId) with
        | some _ => .error "You are already enrolled in this course"
        | none =>
          let item : CartItem := ⟨userId, courseId, termId, notes⟩
          .ok (item, { db with cart := db.cart ++ [item] })

lemma charListLt_irrefl : ∀ l : List Char, charListLt l l = false := by
  intro l
  induction l with
  | nil => rfl
  | cons a as ih => simp [charListLt, ih]

lemma strLt_irrefl (s : String) : strLt s s = false :=
  charListLt_irrefl s.data

/-- C2: `hasTimeConflict` returns true exactly when the two slots share the
day of week and their times overlap as half-open intervals
(`start_a < end_b` and `end_a > start_b` under JS string comparison); in
particular slots that merely touch at an endpoint, and slots on different
days, never conflict. -/
theorem hasTimeConflict_halfOpen_overlap :
    (∀ a b : MeetingTime, hasTimeConflict a b = true ↔
       a.dayOfWeek = b.dayOfWeek ∧ strLt a.startTime b.endTime = true ∧
       strGt a.endTime b.startTime = true) ∧
    (∀ a b : MeetingTime, a.dayOfWeek = b.dayOfWeek → a.endTime = b.startTime →
       hasTimeConflict a b = false) ∧
    (∀ a b : MeetingTime, a.dayOfWeek = b.dayOfWeek → b.endTime = a.startTime →
       hasTimeConflict a b = false) ∧
    (∀ a b : MeetingTime, a.dayOfWeek ≠ b.dayOfWeek → hasTimeConflict a b = false) := by
  have hiff : ∀ a b : MeetingTime, hasTimeConflict a b = true ↔
      a.dayOfWeek = b.dayOfWeek ∧ strLt a.startTime b.endTime = true ∧
      strGt a.endTime b.startTime = true := by
    intro a b
    by_cases h : a.dayOfWeek = b.dayOfWeek
    · simp [hasTimeConflict, h]
    · simp [hasTimeConflict, h]
  refine ⟨hiff, ?_, ?_, ?_⟩
  · intro a b hday hend
    by_contra hc
    rw [Bool.not_eq_false] at hc
    rcases (hiff a b).mp hc with ⟨_, _, hgt⟩
    rw [hend] at hgt
    rw [show strGt b.startTime b.startTime = strLt b.startTime b.startTime from rfl,
        strLt_irrefl] at hgt
    exact Bool.false_ne_true hgt
  · intro a b hday hend
    by_contra hc
    rw [Bool.not_eq_false] at hc
    rcases (hiff a b).mp hc with ⟨_, hlt, _⟩
    rw [← hend] at hlt
    rw [strLt_irrefl] at hlt
    exact Bool.false_ne_true hlt
  · intro a b hday
    simp [hasTimeConflict, hday]

theorem hasTimeConflict_halfOpen_overlap_witness :
    hasTimeConflict ⟨.MONDAY, "09:00", "10:30"⟩ ⟨.MONDAY, "10:00", "11:00"⟩ = true ∧
    hasTimeConflict ⟨.MONDAY, "09:00", "10:30"⟩ ⟨.MONDAY, "10:30", "12:00"⟩ = false ∧
    hasTimeConflict ⟨.MONDAY, "09:00", "10:30"⟩ ⟨.TUESDAY, "09:00", "10:30"⟩ = false :=
  ⟨(hasTimeConflict_halfOpen_overlap.1 _ _).mpr ⟨rfl, by decide, by decide⟩,
   hasTimeConflict_halfOpen_overlap.2.1 _ _ rfl rfl,
   hasTimeConflict_halfOpen_overlap.2.2.2 _ _ (by decide)⟩

/-- C8: the slot-conflict predicate is symmetric. -/
theorem hasTimeConflict_symm :
    ∀ a b : MeetingTime, hasTimeConflict a b = hasTimeConflict b a := by
  intro a b
  by_cases h : a.dayOfWeek = b.dayOfWeek
  · simp only [hasTimeConflict, strLt, strGt, h]
    simp [Bool.and_comm]
  · have h2 : b.dayOfWeek ≠ a.dayOfWeek := fun hh => h hh.symm
    simp [hasTimeConflict, h, h2]

lemma foldl_add_credits (l : List MyEnrollmentRow) (acc : Nat) :
    l.foldl (fun sum e => sum + e.credits) acc = acc + (l.map MyEnrollmentRow.credits).sum := by
  induction l generalizing acc with
  | nil => simp
  | cons e es ih => simp [ih, Nat.add_assoc]

/-- C9: the my-courses summary counts `total_enrolled` as the number of
CONFIRMED enrollments and sums `total_credits` over CONFIRMED enrollments
only; WAITLISTED and PENDING enrollments are counted in their own fields and
contribute nothing to `total_credits` or `total_enrolled`. -/
theorem myCoursesSummary_totals :
    ∀ es : List MyEnrollmentRow,
      (myCoursesSummary es).total_enrolled =
        (es.filter (fun e => e.status == .CONFIRMED)).length ∧
      (myCoursesSummary es).total_credits =
        ((es.filter (fun e => e.status == .CONFIRMED)).map MyEnrollmentRow.credits).sum ∧
      (myCoursesSummary es).total_waitlisted =
        (es.filter (fun e => e.status == .WAITLISTED)).length ∧
      (myCoursesSummary es).total_pending =
        (es.filter (fun e => e.status == .PENDING)).length ∧
      ∀ e : MyEnrollmentRow, e.status = .WAITLISTED ∨ e.status = .PENDING →
        (myCoursesSummary (es ++ [e])).total_credits = (myCoursesSummary es).total_credits ∧
        (myCoursesSummary (es ++ [e])).total_enrolled = (myCoursesSummary es).total_enrolled := by
  intro es
  have hnotc : ∀ e : MyEnrollmentRow, e.status = .WAITLISTED ∨ e.status = .PENDING →
      (e.status == EnrollmentStatus.CONFIRMED) = false := by
    intro e h
    rcases h with h | h <;> simp [h]
  refine ⟨rfl, ?_, rfl, rfl, ?_⟩
  · simp [myCoursesSummary, foldl_add_credits]
  · intro e h
    constructor
    · simp [myCoursesSummary, List.filter_append, hnotc e h, foldl_add_credits]
    · simp [myCoursesSummary, List.filter_append, hnotc e h]

theorem myCoursesSummary_totals_witness :
    (myCoursesSummary ([⟨.CONFIRMED, 3⟩, ⟨.WAITLISTED, 4⟩] ++ [⟨.PENDING, 5⟩])).total_credits =
      (myCoursesSummary [⟨.CONFIRMED, 3⟩, ⟨.WAITLISTED, 4⟩]).total_credits ∧
    (myCoursesSummary ([⟨.CONFIRMED, 3⟩, ⟨.WAITLISTED, 4⟩] ++ [⟨.PENDING, 5⟩])).total_enrolled =
      (myCoursesSummary [⟨.CONFIRMED, 3⟩, ⟨.WAITLISTED, 4⟩]).total_enrolled :=
  (myCoursesSummary_totals [⟨.CONFIRMED, 3⟩, ⟨.WAITLISTED, 4⟩]).2.2.2.2
    ⟨.PENDING, 5⟩ (Or.inr rfl)

/-- C10: `addToCart` fails with a ValidationError exactly when the course or
the term does not exist, the (user, course, term) item is already in the
cart, or the user already holds a CONFIRMED, WAITLISTED or PENDING
enrollment for the course; a failure throws before anything is written, so
the cart is unchanged, and on success exactly one cart item is appended. -/
theorem addToCart_validation :
    ∀ (db : CartDb) (u c t : Nat) (notes : Option String),
      ((∃ msg, addToCart db u c t notes = .error msg) ↔
        (c ∉ db.courses ∨ t ∉ db.terms ∨
         (∃ it ∈ db.cart, it.userId = u ∧ it.courseId = c ∧ it.termId = t) ∨
         (∃ e ∈ db.enrollments, e.userId = u ∧ e.courseId = c ∧
            (e.status = .CONFIRMED ∨ e.status = .WAITLISTED ∨ e.status = .PENDING)))) ∧
      (∀ item db2, addToCart db u c t notes = .ok (item, db2) →
         item = ⟨u, c, t, notes⟩ ∧ db2.cart = db.cart ++ [item] ∧
         db2.courses = db.courses ∧ db2.terms = db.terms ∧
         db2.enrollments = db.enrollments) := by
  intro db u c t notes
  constructor
  · unfold addToCart
    rcases h1 : db.courses.find? (fun c2 => c2 == c) with _ | c2 <;> simp only [h1]
    · have hc : c ∉ db.courses := by
        intro hmem
        have := List.find?_eq_none.mp h1 c hmem
        simp at this
      simp [hc]
    · have hcmem : c ∈ db.courses := by
        have hp := List.find?_some h1
        have hm := List.mem_of_find?_eq_some h1
        simp at hp
        rwa [hp] at hm
      rcases h2 : db.terms.find? (fun t2 => t2 == t) with _ | t2 <;> simp only [h2]
      · have ht : t ∉ db.terms := by
          intro hmem
          have := List.find?_eq_none.mp h2 t hmem
          simp at this
        simp [hcmem, ht]
      · have htmem : t ∈ db.terms := by
          have hp := List.find?_some h2
          have hm := List.mem_of_find?_eq_some h2
          simp at hp
          rwa [hp] at hm
        rcases h3 : db.cart.find? (fun it =>
            it.userId == u && it.courseId == c && it.termId == t) with _ | it0 <;>
          simp only [h3]
        · have hcart : ¬ ∃ it ∈ db.cart, it.userId = u ∧ it.courseId = c ∧ it.termId = t := by
            rintro ⟨it, hmem, hu, hc2, ht2⟩
            have := List.find?_eq_none.mp h3 it hmem
            simp [hu, hc2, ht2] at this
          rcases h4 : db.enrollments.find? (blocksCart u c) with _ | e0 <;> simp only [h4]
          · have henr : ¬ ∃ e ∈ db.enrollments, e.userId = u ∧ e.courseId = c ∧
                (e.status = .CONFIRMED ∨ e.status = .WAITLISTED ∨ e.status = .PENDING) := by
              rintro ⟨e, hmem, hu, hc2, hst⟩
              have := List.find?_eq_none.mp h4 e hmem
              rcases hst with h | h | h <;> simp [blocksCart, hu, hc2, h] at this
            simp [hcmem, htmem, hcart, henr]
          · have hp := List.find?_some h4
            have hm := List.mem_of_find?_eq_some h4
            simp only [blocksCart, Bool.and_eq_true, Bool.or_eq_true, beq_iff_eq] at hp
            have henr : ∃ e ∈ db.enrollments, e.userId = u ∧ e.courseId = c ∧
                (e.status = .CONFIRMED ∨ e.status = .WAITLISTED ∨ e.status = .PENDING) := by
              obtain ⟨⟨hu, hc2⟩, hst⟩ := hp
              exact ⟨e0, hm, hu, hc2, by tauto⟩
            simp [henr]
        · have hp := List.find?_some h3
          have hm := List.mem_of_find?_eq_some h3
          simp only [Bool.and_eq_true, beq_iff_eq] at hp
          have hcart : ∃ it ∈ db.cart, it.userId = u ∧ it.courseId = c ∧ it.termId = t :=
            ⟨it0, hm, hp.1.1, hp.1.2, hp.2⟩
          simp [hcart]
  · intro item db2 h
    unfold addToCart at h
    rcases h1 : db.courses.find? (fun c2 => c2 == c) with _ | c2 <;> rw [h1] at h
    · exact absurd h (by simp)
    rcases h2 : db.terms.find? (fun t2 => t2 == t) with _ | t2 <;> rw [h2] at h
    · exact absurd h (by simp)
    rcases h3 : db.cart.find? (fun it =>
        it.userId == u && it.courseId == c && it.termId == t) with _ | it0 <;> rw [h3] at h
    swap
    · exact absurd h (by simp)
    rcases h4 : db.enrollments.find? (blocksCart u c) with _ | e0 <;> rw [h4] at h
    swap
    · exact absurd h (by simp)
    simp only [Except.ok.injEq, Prod.mk.injEq] at h
    rcases h with ⟨hitem, hdb⟩
    subst hitem
    subst hdb
    exact ⟨rfl, rfl, rfl, rfl, rfl⟩

theorem addToCart_validation_witness :
    addToCart ⟨[1], [2], [], []⟩ 9 1 2 none =
      .ok (⟨9, 1, 2, none⟩, ⟨[1], [2], [⟨9, 1, 2, none⟩], []⟩) ∧
    (⟨[1], [2], [⟨9, 1, 2, none⟩], []⟩ : CartDb).cart =
      (⟨[1], [2], [], []⟩ : CartDb).cart ++ [⟨9, 1, 2, none⟩] := by
  have h : addToCart ⟨[1], [2], [], []⟩ 9 1 2 none =
      .ok (⟨9, 1, 2, none⟩, ⟨[1], [2], [⟨9, 1, 2, none⟩], []⟩) := by rfl
  have hres := (addToCart_validation ⟨[1], [2], [], []⟩ 9 1 2 none).2 _ _ h
  exact ⟨h, hres.2.1⟩

/-- C4 counterexample: for an unknown job handle the status endpoint does
not answer 404 — the controller has no 404 branch; the distinct
expired/unknown result is delivered with HTTP 200. -/
theorem getEnrollmentStatus_unknown_not_404 :
    (JobStore.mk []).jobs.find? (fun e => e.jobId == "job-1") = none ∧
    getEnrollmentStatus (JobStore.mk []) 0 "job-1" = .ok200 .unknownOrExpired ∧
    statusResponseCode (getEnrollmentStatus (JobStore.mk []) 0 "job-1") ≠ 404 := by
  refine ⟨rfl, rfl, ?_⟩
  decide

/-- C4 (amended): `GET /enrollments/status/:jobId` always answers HTTP 200;
a known, unexpired handle yields the job record
(state, enrollment?, errorReason?, retryable?), while an unknown handle or
one past its retention window yields the distinct expired/unknown result —
never a 404. -/
theorem getEnrollmentStatus_responses :
    ∀ (store : JobStore) (now : Nat) (jobId : String),
      statusResponseCode (getEnrollmentStatus store now jobId) = 200 ∧
      (∀ e, store.jobs.find? (fun x => x.jobId == jobId) = some e → ¬ e.expiresAt < now →
         getEnrollmentStatus store now jobId = .ok200 (.record e.record)) ∧
      (store.jobs.find? (fun x => x.jobId == jobId) = none →
         getEnrollmentStatus store now jobId = .ok200 .unknownOrExpired) ∧
      (∀ e, store.jobs.find? (fun x => x.jobId == jobId) = some e → e.expiresAt < now →
         getEnrollmentStatus store now jobId = .ok200 .unknownOrExpired) := by
  intro store now jobId
  refine ⟨rfl, ?_, ?_, ?_⟩
  · intro e hf hex
    simp [getEnrollmentStatus, getEnrollmentJobStatus, hf, hex]
  · intro hf
    simp [getEnrollmentStatus, getEnrollmentJobStatus, hf]
  · intro e hf hex
    simp [getEnrollmentStatus, getEnrollmentJobStatus, hf, hex]

theorem getEnrollmentStatus_responses_witness :
    getEnrollmentStatus (JobStore.mk [⟨"job-0", ⟨.SUCCEEDED, none, none, none⟩, 10⟩]) 5 "job-0" =
      .ok200 (.record ⟨.SUCCEEDED, none, none, none⟩) ∧
    getEnrollmentStatus (JobStore.mk [⟨"job-0", ⟨.SUCCEEDED, none, none, none⟩, 10⟩]) 20 "job-0" =
      .ok200 .unknownOrExpired :=
  ⟨(getEnrollmentStatus_responses (JobStore.mk [⟨"job-0", ⟨.SUCCEEDED, none, none, none⟩, 10⟩])
      5 "job-0").2.1 ⟨"job-0", ⟨.SUCCEEDED, none, none, none⟩, 10⟩ rfl (by decide),
   (getEnrollmentStatus_responses (JobStore.mk [⟨"job-0", ⟨.SUCCEEDED, none, none, none⟩, 10⟩])
      20 "job-0").2.2.2 ⟨"job-0", ⟨.SUCCEEDED, none, none, none⟩, 10⟩ rfl (by decide)⟩

/-- C5: for an authenticated submission, `POST /enrollments` answers 202
with a job handle when the body carries a course id (the handle names a
pending queue job, the admission outcome is not part of the response), and
400 on malformed input (missing course id); the response code is always 202
or 400 — the final enrollment state is never returned synchronously. -/
theorem enrollInCourse_fast_202_or_400 :
    ∀ (q : QueueState) (userId : Nat) (body : Option Nat),
      (body = none →
        enrollInCourse q (some userId) body = (.badRequest400 "Course ID is required", q)) ∧
      (∀ cid, body = some cid →
        ∃ jid q2, enrollInCourse q (some userId) body = (.accepted202 jid, q2) ∧
          ∃ j, j ∈ q2.pending ∧ j.jobId = jid ∧ j.userId = userId ∧ j.courseId = cid) ∧
      (∀ resp q2, enrollInCourse q (some userId) body = (resp, q2) →
        enrollResponseCode resp = 202 ∨ enrollResponseCode resp = 400) := by
  intro q userId body
  refine ⟨?_, ?_, ?_⟩
  · intro hb
    subst hb
    rfl
  · intro cid hb
    subst hb
    simp only [enrollInCourse, queueEnrollment]
    rcases hf : q.pending.find? (fun j => j.userId == userId && j.courseId == cid) with _ | j <;>
      simp only [hf]
    · refine ⟨jobIdFor q.nextJobSeq, _, rfl,
        ⟨jobIdFor q.nextJobSeq, userId, cid⟩, ?_, rfl, rfl, rfl⟩
      simp
    · have hp := List.find?_some hf
      have hm := List.mem_of_find?_eq_some hf
      simp only [Bool.and_eq_true, beq_iff_eq] at hp
      exact ⟨j.jobId, q, rfl, j, hm, rfl, hp.1, hp.2⟩
  · intro resp q2 h
    rcases body with _ | cid
    · simp only [enrollInCourse, queueEnrollment] at h
      rw [Prod.mk.injEq] at h
      rw [← h.1]
      right
      rfl
    · simp only [enrollInCourse, queueEnrollment] at h
      rcases hf : q.pending.find? (fun j => j.userId == userId && j.courseId == cid) with _ | j <;>
        rw [hf] at h <;> rw [Prod.mk.injEq] at h <;> rw [← h.1]
      · left
        rfl
      · left
        rfl

theorem enrollInCourse_fast_202_or_400_witness :
    enrollResponseCode (enrollInCourse ⟨[], 0⟩ (some 7) (some 3)).1 = 202 ∨
    enrollResponseCode (enrollInCourse ⟨[], 0⟩ (some 7) (some 3)).1 = 400 :=
  (enrollInCourse_fast_202_or_400 ⟨[], 0⟩ 7 (some 3)).2.2
    (enrollInCourse ⟨[], 0⟩ (some 7) (some 3)).1
    (enrollInCourse ⟨[], 0⟩ (some 7) (some 3)).2 rfl

/-- C6: dropping an already-WITHDRAWN enrollment is an idempotent no-op —
the drop path succeeds and leaves the whole state unchanged, and the HTTP
layer answers 200; a missing or foreign enrollment makes the service throw,
which the controller maps to 400 with the state unchanged; every service
success is answered with 200. -/
theorem dropCourse_idempotent_no_op :
    ∀ (s : CourseEngineState) (eid uid : Nat),
      (∀ e, s.enrollments.find? (fun x => x.id == eid) = some e → e.userId = uid →
         e.status = .WITHDRAWN →
         dropEnrollment s eid uid = .ok s ∧ dropCourse s (some uid) eid = (.ok200, s)) ∧
      (s.enrollments.find? (fun x => x.id == eid) = none →
         dropCourse s (some uid) eid = (.badRequest400 "Enrollment not found", s)) ∧
      (∀ e, s.enrollments.find? (fun x => x.id == eid) = some e → e.userId ≠ uid →
         dropCourse s (some uid) eid =
           (.badRequest400 "Not authorized to drop this enrollment", s)) ∧
      (∀ s2, dropEnrollment s eid uid = .ok s2 →
         dropCourse s (some uid) eid = (.ok200, s2)) := by
  intro s eid uid
  refine ⟨?_, ?_, ?_, ?_⟩
  · intro e hf hu hst
    have hdrop : dropEnrollment s eid uid = .ok s := by
      simp [dropEnrollment, hf, hu, hst]
    exact ⟨hdrop, by simp [dropCourse, hdrop]⟩
  · intro hf
    simp [dropCourse, dropEnrollment, hf]
  · intro e hf hu
    simp [dropCourse, dropEnrollment, hf, hu]
  · intro s2 h
    simp [dropCourse, h]

theorem dropCourse_idempotent_no_op_witness :
    dropEnrollment ⟨1, 5, 0, [⟨0, 9, 1, .WITHDRAWN, none⟩], 1⟩ 0 9 =
      .ok ⟨1, 5, 0, [⟨0, 9, 1, .WITHDRAWN, none⟩], 1⟩ ∧
    dropCourse ⟨1, 5, 0, [⟨0, 9, 1, .WITHDRAWN, none⟩], 1⟩ (some 9) 0 =
      (.ok200, ⟨1, 5, 0, [⟨0, 9, 1, .WITHDRAWN, none⟩], 1⟩) :=
  (dropCourse_idempotent_no_op ⟨1, 5, 0, [⟨0, 9, 1, .WITHDRAWN, none⟩], 1⟩ 0 9).1
    ⟨0, 9, 1, .WITHDRAWN, none⟩ rfl rfl rfl

lemma compactOne_status (p : Nat) (e : Enrollment) : (compactOne p e).status = e.status := by
  unfold compactOne
  split
  · split
    · split <;> rfl
    · rfl
  · rfl

lemma compactOne_id (p : Nat) (e : Enrollment) : (compactOne p e).id = e.id := by
  unfold compactOne
  split
  · split
    · split <;> rfl
    · rfl
  · rfl

lemma countConfirmed_map_compactOne (p : Nat) (l : List Enrollment) :
    countConfirmed (l.map (compactOne p)) = countConfirmed l := by
  unfold countConfirmed
  rw [List.countP_map]
  apply List.countP_congr
  intro e _
  simp [Function.comp, compactOne_status p e]

lemma ids_map_compactOne (p : Nat) (l : List Enrollment) :
    (l.map (compactOne p)).map Enrollment.id = l.map Enrollment.id := by
  rw [List.map_map]
  exact List.map_congr_left (fun e _ => compactOne_id p e)

lemma withdrawFirst_ids (l : List Enrollment) (eid : Nat) :
    (withdrawFirst l eid).map Enrollment.id = l.map Enrollment.id := by
  induction l with
  | nil => rfl
  | cons e es ih =>
    unfold withdrawFirst
    split
    · rfl
    · simp [ih]

lemma withdrawFirst_count (l : List Enrollment) (eid : Nat) (e : Enrollment)
    (h : l.find? (fun x => x.id == eid) = some e) :
    (e.status = .CONFIRMED →
       countConfirmed (withdrawFirst l eid) + 1 = countConfirmed l) ∧
    (e.status ≠ .CONFIRMED →
       countConfirmed (withdrawFirst l eid) = countConfirmed l) := by
  induction l with
  | nil => simp at h
  | cons x xs ih =>
    by_cases hx : (x.id == eid) = true
    · rw [@List.find?_cons_of_pos _ (fun y => y.id == eid) x xs hx] at h
      have hex : e = x := by
        injection h with h2
        exact h2.symm
      subst hex
      unfold withdrawFirst
      rw [if_pos hx]
      unfold countConfirmed
      rw [List.countP_cons, List.countP_cons]
      constructor
      · intro hst
        simp [hst]
      · intro hst
        have h1 : (e.status == EnrollmentStatus.CONFIRMED) = false := by
          simp [hst]
        simp [h1]
    · rw [@List.find?_cons_of_neg _ (fun y => y.id == eid) x xs hx] at h
      have ihh := ih h
      unfold withdrawFirst
      rw [if_neg hx]
      unfold countConfirmed at ihh ⊢
      rw [List.countP_cons, List.countP_cons]
      constructor
      · intro hst
        have := ihh.1 hst
        omega
      · intro hst
        have := ihh.2 hst
        omega

lemma findMinWaitlisted_mem (l : List Enrollment) (w : Enrollment)
    (h : findMinWaitlisted l = some w) : w ∈ l ∧ w.status = .WAITLISTED := by
  induction l with
  | nil => simp [findMinWaitlisted] at h
  | cons e es ih =>
    unfold findMinWaitlisted at h
    rcases hm : findMinWaitlisted es with _ | b <;> simp only [hm] at h
    · split at h
      · rename_i hst
        injection h with h2
        subst h2
        exact ⟨List.mem_cons_self _ _, by simpa using hst⟩
      · simp at h
    · split at h
      · rename_i hst
        injection h with h2
        subst h2
        rw [Bool.and_eq_true] at hst
        exact ⟨List.mem_cons_self _ _, by simpa using hst.1⟩
      · injection h with h2
        subst h2
        rcases ih hm with ⟨hmem, hstb⟩
        exact ⟨List.mem_cons_of_mem _ hmem, hstb⟩

lemma promoteEntry_ids (l : List Enrollment) (wid p : Nat) :
    (promoteEntry l wid p).map Enrollment.id = l.map Enrollment.id := by
  induction l with
  | nil => rfl
  | cons e es ih =>
    unfold promoteEntry
    split
    · simp [ids_map_compactOne, compactOne_id]
    · simp [ih, compactOne_id]

lemma promoteEntry_count (l : List Enrollment) (w : Enrollment) (p : Nat)
    (hn : (l.map Enrollment.id).Nodup) (hw : w ∈ l) (hst : w.status = .WAITLISTED) :
    countConfirmed (promoteEntry l w.id p) = countConfirmed l + 1 := by
  induction l with
  | nil => simp at hw
  | cons e es ih =>
    rw [List.map_cons] at hn
    by_cases he : (e.id == w.id) = true
    · have hew : e = w := by
        rcases List.mem_cons.mp hw with h2 | h2
        · exact h2.symm
        · exfalso
          rw [beq_iff_eq] at he
          have : w.id ∈ es.map Enrollment.id := List.mem_map_of_mem _ h2
          rw [← he] at this
          exact (List.nodup_cons.mp hn).1 this
      subst hew
      unfold promoteEntry
      rw [if_pos he]
      unfold countConfirmed
      rw [List.countP_cons, List.countP_cons]
      have h2 : countConfirmed (es.map (compactOne p)) = countConfirmed es :=
        countConfirmed_map_compactOne p es
      unfold countConfirmed at h2
      rw [h2]
      simp [hst]
    · have hwes : w ∈ es := by
        rcases List.mem_cons.mp hw with h2 | h2
        · exfalso
          subst h2
          simp at he
        · exact h2
      unfold promoteEntry
      rw [if_neg he]
      unfold countConfirmed
      rw [List.countP_cons, List.countP_cons]
      have hrec := ih (List.nodup_cons.mp hn).2 hwes
      unfold countConfirmed at hrec
      rw [hrec]
      have hcs : ((compactOne p e).status == EnrollmentStatus.CONFIRMED) =
          (e.status == EnrollmentStatus.CONFIRMED) := by
        rw [compactOne_status]
      rw [hcs]
      omega

lemma idBound_of_ids_eq (l l2 : List Enrollment) (n : Nat)
    (h : l2.map Enrollment.id = l.map Enrollment.id)
    (hb : ∀ e ∈ l, e.id < n) : ∀ e ∈ l2, e.id < n := by
  intro e he
  have hmem : e.id ∈ l2.map Enrollment.id := List.mem_map_of_mem _ he
  rw [h] at hmem
  rcases List.mem_map.mp hmem with ⟨y, hy, hye⟩
  rw [← hye]
  exact hb y hy

lemma promote_preserves_wf (s : CourseEngineState) (hwf : EngineWF s)
    (hlt : s.confirmedCount < s.capacity) : EngineWF (promote s) := by
  obtain ⟨hcount, hcap, hnodup, hbound⟩ := hwf
  unfold promote
  rcases hm : findMinWaitlisted s.enrollments with _ | w
  · exact ⟨hcount, hcap, hnodup, hbound⟩
  · obtain ⟨hmem, hst⟩ := findMinWaitlisted_mem _ _ hm
    refine ⟨?_, ?_, ?_, ?_⟩
    · show s.confirmedCount + 1 = countConfirmed (promoteEntry s.enrollments w.id _)
      rw [promoteEntry_count s.enrollments w _ hnodup hmem hst, hcount]
    · show s.confirmedCount + 1 ≤ s.capacity
      omega
    · show ((promoteEntry s.enrollments w.id _).map Enrollment.id).Nodup
      rw [promoteEntry_ids]
      exact hnodup
    · exact idBound_of_ids_eq _ _ _ (promoteEntry_ids _ _ _) hbound

lemma countConfirmed_append_one (l : List Enrollment) (e : Enrollment) :
    countConfirmed (l ++ [e]) =
      countConfirmed l + (if (e.status == EnrollmentStatus.CONFIRMED) = true then 1 else 0) := by
  unfold countConfirmed
  rw [List.countP_append]
  simp [List.countP_cons]

lemma nodup_ids_append_fresh (l : List Enrollment) (e : Enrollment) (n : Nat)
    (hnodup : (l.map Enrollment.id).Nodup) (hbound : ∀ x ∈ l, x.id < n) (he : e.id = n) :
    ((l ++ [e]).map Enrollment.id).Nodup := by
  rw [List.map_append, List.nodup_append]
  refine ⟨hnodup, by simp, ?_⟩
  intro a ha hb
  simp at hb
  rcases List.mem_map.mp ha with ⟨x, hx, hxa⟩
  have := hbound x hx
  omega

/-- C1: the admission engine keeps `0 ≤ confirmedCount ≤ capacity` and
`confirmedCount` equal to the number of CONFIRMED enrollments of the course:
`decideAdmission` (with any conflict-check outcome), every successful `drop`, and
`promote` (invoked when a seat is free, as in its only call site) all
preserve the invariant, packaged in `EngineWF` together with the uniqueness
of enrollment ids. -/
theorem admission_engine_preserves_capacity_invariant :
    ∀ s : CourseEngineState, EngineWF s →
      (∀ r conflict, EngineWF (decideAdmission s r conflict).2) ∧
      (∀ eid uid s2, dropEnrollment s eid uid = .ok s2 → EngineWF s2) ∧
      (s.confirmedCount < s.capacity → EngineWF (promote s)) := by
  intro s hwf
  obtain ⟨hcount, hcap, hnodup, hbound⟩ := hwf
  refine ⟨?_, ?_, fun hlt => promote_preserves_wf s ⟨hcount, hcap, hnodup, hbound⟩ hlt⟩
  · intro r conflict
    unfold decideAdmission
    split
    · exact ⟨hcount, hcap, hnodup, hbound⟩
    split
    · exact ⟨hcount, hcap, hnodup, hbound⟩
    split
    · rename_i hlt
      refine ⟨?_, ?_, ?_, ?_⟩
      · show s.confirmedCount + 1 = countConfirmed (s.enrollments ++ [_])
        rw [countConfirmed_append_one]
        simp [hcount]
      · show s.confirmedCount + 1 ≤ s.capacity
        omega
      · exact nodup_ids_append_fresh _ _ _ hnodup hbound rfl
      · intro e he
        rcases List.mem_append.mp he with h2 | h2
        · have := hbound e h2
          show e.id < s.nextEnrollmentId + 1
          omega
        · simp at h2
          subst h2
          show s.nextEnrollmentId < s.nextEnrollmentId + 1
          omega
    · refine ⟨?_, ?_, ?_, ?_⟩
      · show s.confirmedCount = countConfirmed (s.enrollments ++ [_])
        rw [countConfirmed_append_one]
        simp [hcount]
      · exact hcap
      · exact nodup_ids_append_fresh _ _ _ hnodup hbound rfl
      · intro e he
        rcases List.mem_append.mp he with h2 | h2
        · have := hbound e h2
          show e.id < s.nextEnrollmentId + 1
          omega
        · simp at h2
          subst h2
          show s.nextEnrollmentId < s.nextEnrollmentId + 1
          omega
  · intro eid uid s2 h
    unfold dropEnrollment at h
    rcases hf : s.enrollments.find? (fun e => e.id == eid) with _ | e <;> simp only [hf] at h
    · simp at h
    · split at h
      · simp at h
      · rcases hst : e.status with _ | _ | _ | _ <;> simp only [hst] at h
        · -- PENDING
          injection h with h2
          subst h2
          have hw := (withdrawFirst_count s.enrollments eid e hf).2 (by simp [hst])
          refine ⟨?_, hcap, ?_, ?_⟩
          · show s.confirmedCount = countConfirmed (withdrawFirst s.enrollments eid)
            rw [hw, hcount]
          · show ((withdrawFirst s.enrollments eid).map Enrollment.id).Nodup
            rw [withdrawFirst_ids]
            exact hnodup
          · exact idBound_of_ids_eq _ _ _ (withdrawFirst_ids _ _) hbound
        · -- CONFIRMED
          injection h with h2
          subst h2
          have hw := (withdrawFirst_count s.enrollments eid e hf).1 hst
          apply promote_preserves_wf
          · refine ⟨?_, ?_, ?_, ?_⟩
            · show s.confirmedCount - 1 = countConfirmed (withdrawFirst s.enrollments eid)
              omega
            · show s.confirmedCount - 1 ≤ s.capacity
              omega
            · show ((withdrawFirst s.enrollments eid).map Enrollment.id).Nodup
              rw [withdrawFirst_ids]
              exact hnodup
            · exact idBound_of_ids_eq _ _ _ (withdrawFirst_ids _ _) hbound
          · show s.confirmedCount - 1 < s.capacity
            omega
        · -- WAITLISTED
          injection h with h2
          subst h2
          have hw := (withdrawFirst_count s.enrollments eid e hf).2 (by simp [hst])
          refine ⟨?_, hcap, ?_, ?_⟩
          · show s.confirmedCount =
              countConfirmed ((withdrawFirst s.enrollments eid).map (compactOne _))
            rw [countConfirmed_map_compactOne, hw, hcount]
          · show (((withdrawFirst s.enrollments eid).map (compactOne _)).map Enrollment.id).Nodup
            rw [ids_map_compactOne, withdrawFirst_ids]
            exact hnodup
          · apply idBound_of_ids_eq _ _ _ _ hbound
            rw [ids_map_compactOne, withdrawFirst_ids]
        · -- WITHDRAWN
          injection h with h2
          subst h2
          exact ⟨hcount, hcap, hnodup, hbound⟩

theorem admission_engine_preserves_capacity_invariant_witness :
    EngineWF (decideAdmission (initCourse 1 2) 7 false).2 :=
  (admission_engine_preserves_capacity_invariant (initCourse 1 2)
    ⟨rfl, by decide, by decide, by simp [initCourse]⟩).1 7 false

/-- C3: for an existing candidate course, `checkCourseConflicts` returns the
pairs (candidate slot, schedule item) that are exactly those satisfying the
overlap predicate, the schedule items are drawn only from the user's
CONFIRMED or WAITLISTED enrollments, and `hasConflict` is true iff the pair
list is non-empty. -/
theorem checkCourseConflicts_pairs :
    ∀ (db : ScheduleDb) (uid cid : Nat) (termId : Option Nat) (course : Course),
      db.courses.find? (fun c => c.id == cid) = some course →
      ∃ r, checkCourseConflicts db uid cid termId = .ok r ∧
        (∀ ns it, (ns, it) ∈ r.conflicts ↔
          ns ∈ course.timeSlots ∧ it ∈ getUserWeeklySchedule db uid termId ∧
          hasTimeConflict ns.toMeeting it.toMeeting = true) ∧
        (r.hasConflict = true ↔ r.conflicts ≠ []) ∧
        (∀ it ∈ getUserWeeklySchedule db uid termId,
          ∃ e, e ∈ db.enrollments ∧ e.userId = uid ∧
            (e.status = .CONFIRMED ∨ e.status = .WAITLISTED) ∧
            it.enrollmentStatus = e.status ∧
            ∃ ts, ts ∈ e.course.timeSlots ∧ it.toMeeting = ts.toMeeting) := by
  intro db uid cid termId course hfind
  unfold checkCourseConflicts
  simp only [hfind]
  refine ⟨_, rfl, ?_, ?_, ?_⟩
  · intro ns it
    constructor
    · intro hmem
      rw [List.mem_flatMap] at hmem
      obtain ⟨a, ha, hmem2⟩ := hmem
      rw [List.mem_map] at hmem2
      obtain ⟨it2, hit2, heq⟩ := hmem2
      rw [Prod.mk.injEq] at heq
      obtain ⟨h1, h2⟩ := heq
      subst h1
      subst h2
      rcases List.mem_filter.mp hit2 with ⟨hin, hpred⟩
      exact ⟨ha, hin, hpred⟩
    · rintro ⟨h1, h2, h3⟩
      rw [List.mem_flatMap]
      exact ⟨ns, h1, List.mem_map.mpr ⟨it, List.mem_filter.mpr ⟨h2, h3⟩, rfl⟩⟩
  · constructor
    · intro h
      exact List.length_pos.mp (of_decide_eq_true h)
    · intro h
      exact decide_eq_true (List.length_pos.mpr h)
  · intro it hit
    simp only [getUserWeeklySchedule] at hit
    rw [List.mem_mergeSort] at hit
    rw [List.mem_flatMap] at hit
    obtain ⟨e, he, hit2⟩ := hit
    rw [List.mem_map] at hit2
    obtain ⟨ts, hts, heq⟩ := hit2
    rcases List.mem_filter.mp he with ⟨hin, hpred⟩
    simp only [Bool.and_eq_true, Bool.or_eq_true, beq_iff_eq] at hpred
    subst heq
    exact ⟨e, hin, hpred.1.1, hpred.1.2, rfl, ts, hts, rfl⟩

/-- A concrete course and schedule database exercising the conflict check. -/
def conflictCourse : Course :=
  ⟨1, "CSC3170", "Database System", 3, [⟨.MONDAY, "09:00", "10:30", none⟩], none⟩

def conflictDb : ScheduleDb :=
  ⟨[⟨0, 7, 1, .CONFIRMED,
     ⟨2, "DDA3020", "Machine Learning", 3, [⟨.MONDAY, "10:00", "11:00", none⟩], none⟩⟩],
   [conflictCourse]⟩

theorem checkCourseConflicts_pairs_witness :
    (checkCourseConflicts conflictDb 7 1 none).isOk = true := by
  obtain ⟨r, hr, _⟩ := checkCourseConflicts_pairs conflictDb 7 1 none conflictCourse rfl
  rw [hr]
  rfl

/-- A CONFIRMED enrollment row as created by the admission engine. -/
def enrCONF (cid i u : Nat) : Enrollment := ⟨i, u, cid, .CONFIRMED, none⟩

/-- A WAITLISTED enrollment row with its waitlist position. -/
def enrWL (cid i u p : Nat) : Enrollment := ⟨i, u, cid, .WAITLISTED, some p⟩

/-- Closed form of the enrollment rows produced by a batch of admissions on
a fresh course: request number `i` is CONFIRMED while `i < k` and
WAITLISTED at position `i - k + 1` afterwards. -/
def buildEnrs (cid k : Nat) : Nat → List Nat → List Enrollment
  | _, [] => []
  | i, u :: us =>
    (if i < k then enrCONF cid i u else enrWL cid i u (i - k + 1)) :: buildEnrs cid k (i + 1) us

lemma buildEnrs_append (cid k : Nat) :
    ∀ (us : List Nat) (u i : Nat),
      buildEnrs cid k i (us ++ [u]) = buildEnrs cid k i us ++
        [if i + us.length < k then enrCONF cid (i + us.length) u
         else enrWL cid (i + us.length) u (i + us.length - k + 1)] := by
  intro us
  induction us with
  | nil =>
    intro u i
    simp [buildEnrs]
  | cons x us ih =>
    intro u i
    simp only [List.cons_append, buildEnrs, List.length_cons]
    rw [show i + (us.length + 1) = i + 1 + us.length from by omega]
    rw [← ih u (i + 1)]
    rfl

lemma buildEnrs_userIds (cid k : Nat) :
    ∀ (us : List Nat) (i : Nat), (buildEnrs cid k i us).map Enrollment.userId = us := by
  intro us
  induction us with
  | nil => intro i; rfl
  | cons u us ih =>
    intro i
    rw [buildEnrs, List.map_cons, ih]
    congr 1
    split <;> rfl

lemma buildEnrs_any_active_false (cid k : Nat) (us : List Nat) (i u0 : Nat) (hu : u0 ∉ us) :
    (buildEnrs cid k i us).any (fun e => e.userId == u0 && isActiveStatus e.status) = false := by
  rw [List.any_eq_false]
  intro x hx
  have hmem : x.userId ∈ us := by
    have h2 := List.mem_map_of_mem Enrollment.userId hx
    rwa [buildEnrs_userIds] at h2
  have hne : x.userId ≠ u0 := fun hcontra => hu (hcontra ▸ hmem)
  simp [hne]

lemma maxWP_append_enrCONF (l : List Enrollment) (cid i u : Nat) :
    maxWaitlistPosition (l ++ [enrCONF cid i u]) = maxWaitlistPosition l := by
  unfold maxWaitlistPosition
  rw [List.foldl_append]
  rfl

lemma maxWP_append_enrWL (l : List Enrollment) (cid i u p : Nat) :
    maxWaitlistPosition (l ++ [enrWL cid i u p]) = max (maxWaitlistPosition l) p := by
  unfold maxWaitlistPosition
  rw [List.foldl_append]
  rfl

lemma buildEnrs_maxWP (cid k : Nat) :
    ∀ us : List Nat, maxWaitlistPosition (buildEnrs cid k 0 us) = us.length - k := by
  intro us
  induction us using List.reverseRecOn with
  | nil => simp [maxWaitlistPosition, buildEnrs]
  | append_singleton us u ih =>
    rw [buildEnrs_append]
    by_cases hn : 0 + us.length < k
    · rw [if_pos hn, maxWP_append_enrCONF, ih]
      simp only [List.length_append, List.length_cons, List.length_nil]
      omega
    · rw [if_neg hn, maxWP_append_enrWL, ih]
      simp only [List.length_append, List.length_cons, List.length_nil]
      omega

lemma runAdmissions_append (s : CourseEngineState) (us : List Nat) (u : Nat) :
    runAdmissions s (us ++ [u]) = (decideAdmission (runAdmissions s us) u false).2 := by
  simp [runAdmissions, List.foldl_append]

lemma runAdmissions_closed (cid k : Nat) :
    ∀ us : List Nat, us.Nodup →
      runAdmissions (initCourse cid k) us =
        ⟨cid, k, min us.length k, buildEnrs cid k 0 us, us.length⟩ := by
  intro us
  induction us using List.reverseRecOn with
  | nil =>
    intro _
    simp [runAdmissions, initCourse, buildEnrs]
  | append_singleton us u ih =>
    intro hnd
    have hnd2 : us.Nodup := (List.nodup_append.mp hnd).1
    have hu : u ∉ us := by
      have h3 := (List.nodup_append.mp hnd).2.2
      intro hmem
      exact h3 hmem (by simp)
    rw [runAdmissions_append, ih hnd2]
    unfold decideAdmission
    have hany := buildEnrs_any_active_false cid k us 0 u hu
    simp only [hany, Bool.false_eq_true, if_false]
    by_cases hn : us.length < k
    · have hmin : min us.length k = us.length := min_eq_left (le_of_lt hn)
      simp only [hmin]
      rw [if_pos hn]
      simp only [CourseEngineState.mk.injEq]
      refine ⟨by simp, by simp, ?_, ?_, by simp⟩
      · simp only [List.length_append, List.length_cons, List.length_nil]
        omega
      · rw [buildEnrs_append]
        rw [if_pos (by omega : 0 + us.length < k)]
        simp [enrCONF]
    · have hmin : min us.length k = k := min_eq_right (le_of_not_lt hn)
      simp only [hmin]
      rw [if_neg (by omega : ¬ k < k)]
      simp only [CourseEngineState.mk.injEq]
      refine ⟨by simp, by simp, ?_, ?_, by simp⟩
      · simp only [List.length_append, List.length_cons, List.length_nil]
        omega
      · rw [buildEnrs_append]
        rw [if_neg (by omega : ¬ 0 + us.length < k)]
        rw [buildEnrs_maxWP]
        simp only [enrWL]
        rw [show 0 + us.length = us.length from by omega]

lemma buildEnrs_filter_conf (cid k : Nat) :
    ∀ (us : List Nat) (i : Nat),
      ((buildEnrs cid k i us).filter (fun e => e.status == .CONFIRMED)).map Enrollment.userId
        = us.take (k - i) := by
  intro us
  induction us with
  | nil => intro i; simp [buildEnrs]
  | cons u us ih =>
    intro i
    rw [buildEnrs]
    by_cases hi : i < k
    · rw [if_pos hi]
      rw [show k - i = (k - (i + 1)) + 1 from by omega, List.take_succ_cons]
      rw [List.filter_cons_of_pos (by rfl), List.map_cons, ih (i + 1)]
      rfl
    · rw [if_neg hi]
      rw [List.filter_cons_of_neg (by simp [enrWL]), ih (i + 1)]
      rw [show k - i = 0 from by omega, show k - (i + 1) = 0 from by omega]
      simp

lemma buildEnrs_filter_wl (cid k : Nat) :
    ∀ (us : List Nat) (i : Nat),
      ((buildEnrs cid k i us).filter (fun e => e.status == .WAITLISTED)).map Enrollment.userId
        = us.drop (k - i) := by
  intro us
  induction us with
  | nil => intro i; simp [buildEnrs]
  | cons u us ih =>
    intro i
    rw [buildEnrs]
    by_cases hi : i < k
    · rw [if_pos hi]
      rw [show k - i = (k - (i + 1)) + 1 from by omega, List.drop_succ_cons]
      rw [List.filter_cons_of_neg (by simp [enrCONF]), ih (i + 1)]
    · rw [if_neg hi]
      rw [List.filter_cons_of_pos (by rfl), List.map_cons, ih (i + 1)]
      rw [show k - i = 0 from by omega, show k - (i + 1) = 0 from by omega]
      rfl

lemma buildEnrs_filter_wl_pos (cid k : Nat) :
    ∀ (us : List Nat) (i : Nat),
      ((buildEnrs cid k i us).filter (fun e => e.status == .WAITLISTED)).map
          (fun e => e.waitlistPosition.getD 0)
        = (List.range (us.length - (k - i))).map (fun j => (i - k) + 1 + j) := by
  intro us
  induction us with
  | nil => intro i; simp [buildEnrs]
  | cons u us ih =>
    intro i
    rw [buildEnrs]
    by_cases hi : i < k
    · rw [if_pos hi]
      rw [List.filter_cons_of_neg (by simp [enrCONF]), ih (i + 1)]
      simp only [List.length_cons]
      rw [show us.length + 1 - (k - i) = us.length - (k - (i + 1)) from by omega]
      apply List.map_congr_left
      intro j _
      omega
    · rw [if_neg hi]
      rw [List.filter_cons_of_pos (by rfl), List.map_cons, ih (i + 1)]
      simp only [List.length_cons]
      rw [show us.length + 1 - (k - i) = (us.length - (k - (i + 1))) + 1 from by omega]
      rw [List.range_succ_eq_map, List.map_cons, List.map_map]
      congr 1
      apply List.map_congr_left
      intro j _
      simp [Function.comp]
      omega

/-- C7: when `k + m` valid enrollment requests for a fresh course of
capacity `k` are submitted together, the per-course lane that serializes
the read-decide-write on `confirmedCount` (spec section 5; modelled here as
processing in submission order) confirms exactly the first `k` requesters,
waitlists the remaining `m` in submission order with positions `1..m`, and
leaves `confirmedCount = k`. -/
theorem concurrent_admissions_fill_then_waitlist :
    ∀ (cid k m : Nat) (rs : List Nat), rs.Nodup → rs.length = k + m →
      ((runAdmissions (initCourse cid k) rs).enrollments.filter
          (fun e => e.status == .CONFIRMED)).map Enrollment.userId = rs.take k ∧
      ((runAdmissions (initCourse cid k) rs).enrollments.filter
          (fun e => e.status == .WAITLISTED)).map Enrollment.userId = rs.drop k ∧
      ((runAdmissions (initCourse cid k) rs).enrollments.filter
          (fun e => e.status == .CONFIRMED)).length = k ∧
      ((runAdmissions (initCourse cid k) rs).enrollments.filter
          (fun e => e.status == .WAITLISTED)).length = m ∧
      ((runAdmissions (initCourse cid k) rs).enrollments.filter
          (fun e => e.status == .WAITLISTED)).map (fun e => e.waitlistPosition.getD 0) =
        (List.range m).map (fun j => j + 1) ∧
      (runAdmissions (initCourse cid k) rs).confirmedCount = k := by
  intro cid k m rs hnd hlen
  have hcl := runAdmissions_closed cid k rs hnd
  rw [hcl]
  have hconf := buildEnrs_filter_conf cid k rs 0
  have hwl := buildEnrs_filter_wl cid k rs 0
  have hpos := buildEnrs_filter_wl_pos cid k rs 0
  refine ⟨?_, ?_, ?_, ?_, ?_, ?_⟩
  · show ((buildEnrs cid k 0 rs).filter
        (fun e => e.status == EnrollmentStatus.CONFIRMED)).map Enrollment.userId = rs.take k
    rw [hconf, Nat.sub_zero]
  · show ((buildEnrs cid k 0 rs).filter
        (fun e => e.status == EnrollmentStatus.WAITLISTED)).map Enrollment.userId = rs.drop k
    rw [hwl, Nat.sub_zero]
  · show ((buildEnrs cid k 0 rs).filter
        (fun e => e.status == EnrollmentStatus.CONFIRMED)).length = k
    have h2 := congrArg List.length hconf
    simp only [List.length_map, List.length_take] at h2
    omega
  · show ((buildEnrs cid k 0 rs).filter
        (fun e => e.status == EnrollmentStatus.WAITLISTED)).length = m
    have h2 := congrArg List.length hwl
    simp only [List.length_map, List.length_drop] at h2
    omega
  · show ((buildEnrs cid k 0 rs).filter
        (fun e => e.status == EnrollmentStatus.WAITLISTED)).map
          (fun e => e.waitlistPosition.getD 0) = (List.range m).map (fun j => j + 1)
    rw [hpos]
    rw [show rs.length - (k - 0) = m from by omega]
    apply List.map_congr_left
    intro j _
    omega
  · show min rs.length k = k
    omega

theorem concurrent_admissions_fill_then_waitlist_witness :
    ((runAdmissions (initCourse 1 1) [10, 11]).enrollments.filter
        (fun e => e.status == .CONFIRMED)).map Enrollment.userId = [10] ∧
    ((runAdmissions (initCourse 1 1) [10, 11]).enrollments.filter
        (fun e => e.status == .WAITLISTED)).map Enrollment.userId = [11] ∧
    (runAdmissions (initCourse 1 1) [10, 11]).confirmedCount = 1 := by
  have h := concurrent_admissions_fill_then_waitlist 1 1 1 [10, 11] (by decide) rfl
  exact ⟨h.1, h.2.1, h.2.2.2.2.2⟩
